import Mathlib

/-!
Verification of the CipherLink cryptographic session lifecycle engine.

Shallow embedding of the Python backend:
* `backend/blockchain/block.py` and `backend/blockchain/engine.py`
  (proof-of-work mining and full-pass chain validation),
* `backend/kdc/service.py` and `backend/key_lifecycle/routes.py`
  (session key issuance, rotation, revocation),
* `backend/pfs/ecdh_service.py` (ephemeral ECDH handshake store),
* `backend/utils/rate_limit.py` (sliding-window rate limiter),
* `backend/key_lifecycle/routes.py` and `backend/routes/crypto.py`
  (audit-log queries).

External cryptographic primitives (SHA-256, RSA, HKDF, the EC group) are
parameters of the embedding, following the spec's external-interface
boundary: the engine consumes a digest function and envelope encryption
but does not own them.  Machine integers stay `Nat`; wall-clock instants
and float timestamps are modelled as `Rat`.
-/

namespace CipherLink

set_option maxRecDepth 2048

/-! ### Decimal rendering of naturals

Python renders integers into f-strings in decimal.  `decStr` is that
rendering: most-significant digit first, no leading zeros, `"0"` for zero.
-/

/-- Decimal digit to its ASCII character, as Python's `str` renders it. -/
def digitChar10 : Nat → Char
  | 0 => '0' | 1 => '1' | 2 => '2' | 3 => '3' | 4 => '4'
  | 5 => '5' | 6 => '6' | 7 => '7' | 8 => '8' | 9 => '9'
  | _ => '*'

/-- Decimal string of a natural number (Python `str(n)` / `f"{n}"`). -/
def decStr (n : Nat) : String :=
  if n = 0 then "0" else String.mk (((Nat.digits 10 n).map digitChar10).reverse)

theorem digitChar10_inj {a b : Nat} (ha : a < 10) (hb : b < 10)
    (h : digitChar10 a = digitChar10 b) : a = b := by
  interval_cases a <;> interval_cases b <;> revert h <;> decide

theorem map_digitChar10_inj : ∀ {l1 l2 : List Nat},
    (∀ x ∈ l1, x < 10) → (∀ x ∈ l2, x < 10) →
    l1.map digitChar10 = l2.map digitChar10 → l1 = l2
  | [], [], _, _, _ => rfl
  | [], _ :: _, _, _, h => by simp at h
  | _ :: _, [], _, _, h => by simp at h
  | a :: l1, b :: l2, h1, h2, h => by
    simp only [List.map_cons, List.cons.injEq] at h
    have hab : a = b :=
      digitChar10_inj (h1 a (List.mem_cons_self a l1)) (h2 b (List.mem_cons_self b l2)) h.1
    have hl : l1 = l2 :=
      map_digitChar10_inj (fun x hx => h1 x (List.mem_cons_of_mem a hx))
        (fun x hx => h2 x (List.mem_cons_of_mem b hx)) h.2
    rw [hab, hl]

theorem decStr_injective : Function.Injective decStr := by
  intro a b h
  unfold decStr at h
  by_cases ha : a = 0 <;> by_cases hb : b = 0
  · rw [ha, hb]
  · exfalso
    rw [if_pos ha, if_neg hb] at h
    have hd := congrArg String.data h
    simp only [String.data] at hd
    obtain ⟨d, hd1, hd2⟩ : ∃ d, Nat.digits 10 b = [d] ∧ digitChar10 d = '0' := by
      rcases hdig : Nat.digits 10 b with _ | ⟨d, rest⟩
      · rw [hdig] at hd; simp at hd
      · rw [hdig] at hd
        rcases rest with _ | ⟨e, rest'⟩
        · exact ⟨d, rfl, by simpa using hd.symm⟩
        · exfalso
          have hlen := congrArg List.length hd
          simp at hlen
    have hd0 : d = 0 := by
      have hdlt : d < 10 := Nat.digits_lt_base (by norm_num) (hd1 ▸ List.mem_cons_self d [])
      exact digitChar10_inj hdlt (by norm_num) (by rw [hd2]; rfl)
    have : b = 0 := by
      have := Nat.ofDigits_digits 10 b
      rw [hd1, hd0] at this
      simpa [Nat.ofDigits] using this.symm
    exact hb this
  · exfalso
    rw [if_neg ha, if_pos hb] at h
    have hd := congrArg String.data h.symm
    simp only [String.data] at hd
    obtain ⟨d, hd1, hd2⟩ : ∃ d, Nat.digits 10 a = [d] ∧ digitChar10 d = '0' := by
      rcases hdig : Nat.digits 10 a with _ | ⟨d, rest⟩
      · rw [hdig] at hd; simp at hd
      · rw [hdig] at hd
        rcases rest with _ | ⟨e, rest'⟩
        · exact ⟨d, rfl, by simpa using hd.symm⟩
        · exfalso
          have hlen := congrArg List.length hd
          simp at hlen
    have hd0 : d = 0 := by
      have hdlt : d < 10 := Nat.digits_lt_base (by norm_num) (hd1 ▸ List.mem_cons_self d [])
      exact digitChar10_inj hdlt (by norm_num) (by rw [hd2]; rfl)
    have : a = 0 := by
      have := Nat.ofDigits_digits 10 a
      rw [hd1, hd0] at this
      simpa [Nat.ofDigits] using this.symm
    exact ha this
  · rw [if_neg ha, if_neg hb] at h
    have hd : ((Nat.digits 10 a).map digitChar10).reverse
        = ((Nat.digits 10 b).map digitChar10).reverse := by
      have := congrArg String.data h
      simpa [String.data] using this
    have hmap := List.reverse_injective hd
    have hdig : Nat.digits 10 a = Nat.digits 10 b :=
      map_digitChar10_inj
        (fun x hx => Nat.digits_lt_base (by norm_num) hx)
        (fun x hx => Nat.digits_lt_base (by norm_num) hx) hmap
    calc a = Nat.ofDigits 10 (Nat.digits 10 a) := (Nat.ofDigits_digits 10 a).symm
    _ = Nat.ofDigits 10 (Nat.digits 10 b) := by rw [hdig]
    _ = b := Nat.ofDigits_digits 10 b

/-! ### Proof-of-work ledger

From `backend/blockchain/block.py` (`BlockData.header_string`) and
`backend/blockchain/engine.py` (`BlockchainEngine.mine_block`,
`BlockchainEngine.validate_chain`).  A stored block and the hashing
dataclass carry the same header fields, so one record serves both; the
digest `H` (SHA-256 hex in the source) is a parameter.  Timestamps are
the unix seconds `int(timestamp.timestamp())` used by `header_string`.
-/

structure BlockRec where
  height : Nat
  previous_hash : Option String
  nonce : Nat
  difficulty : Nat
  message_hash : String
  payload : Option (String × String)
  timestamp : Nat
  hash : String
deriving DecidableEq, Repr

/-- Python `self.previous_hash or "GENESIS"`: `None` and the empty string
are both falsy and render as `"GENESIS"`. -/
def prevRepr : Option String → String
  | none => "GENESIS"
  | some s => if s = "" then "GENESIS" else s

/-- Python `"" if not self.payload else f"{sender_id}:{receiver_id}"`. -/
def payloadRepr : Option (String × String) → String
  | none => ""
  | some (s, r) => s ++ (":" ++ r)

/-- The canonical header string of `BlockData.header_string`:
`f"{height}|{prev}|{nonce}|{difficulty}|{message_hash}|{payload_repr}|{int(ts)}"`. -/
def headerString (b : BlockRec) : String :=
  decStr b.height ++ ("|" ++ (prevRepr b.previous_hash ++ ("|" ++ (decStr b.nonce ++
    ("|" ++ (decStr b.difficulty ++ ("|" ++ (b.message_hash ++
    ("|" ++ (payloadRepr b.payload ++ ("|" ++ decStr b.timestamp)))))))))))

/-- Python `block_hash.startswith("0" * difficulty)`: the character
sequence of `s` begins with `d` zero characters. -/
def startsWithZeros (s : String) (d : Nat) : Bool :=
  List.isPrefixOf (List.replicate d '0') s.data

/-- `mine_block`: `height = 0 if not last_block else last_block.height + 1`. -/
def mineHeight : Option BlockRec → Nat
  | none => 0
  | some b => b.height + 1

/-- `mine_block`: `previous_hash = None if not last_block else last_block.hash`. -/
def minePrev : Option BlockRec → Option String
  | none => none
  | some b => some b.hash

/-- Header of the mining candidate with nonce `n`; the timestamp is the
single value fixed before the loop, so the header varies only in `n`. -/
def mineHeader (last : Option BlockRec) (msg : String) (pl : Option (String × String))
    (ts : Nat) (D : Nat) (n : Nat) : String :=
  headerString ⟨mineHeight last, minePrev last, n, D, msg, pl, ts, ""⟩

/-- `BlockchainEngine.mine_block`: starting from nonce 0 the loop stops at
the first nonce whose header digest has the required leading zeros; the
hypothesis `hex` is the termination of the (deliberately unbounded) search. -/
def mineBlock (H : String → String) (last : Option BlockRec) (msg : String)
    (pl : Option (String × String)) (ts : Nat) (D : Nat)
    (hex : ∃ n, startsWithZeros (H (mineHeader last msg pl ts D n)) D = true) : BlockRec :=
  let n := Nat.find hex
  { height := mineHeight last, previous_hash := minePrev last, nonce := n,
    difficulty := D, message_hash := msg, payload := pl, timestamp := ts,
    hash := H (mineHeader last msg pl ts D n) }

/-- Issue strings produced by one loop iteration of `validate_chain`:
recomputed-hash mismatch, broken previous-hash link (skipped at height 0),
difficulty violation — appended in this order, never aborting. -/
def blockIssues (H : String → String) (prevHash : Option String) (b : BlockRec) :
    List String :=
  (if H (headerString b) ≠ b.hash then ["Hash mismatch at height " ++ decStr b.height] else [])
    ++ (if prevHash ≠ b.previous_hash ∧ b.height ≠ 0 then
          ["Broken previous hash at height " ++ decStr b.height] else [])
    ++ (if startsWithZeros b.hash b.difficulty = false then
          ["Difficulty violation at height " ++ decStr b.height] else [])

/-- The loop of `validate_chain`, threading `prev_hash` (initially `None`)
through the chain in stored ascending-height order. -/
def validateGo (H : String → String) : Option String → List BlockRec → List String
  | _, [] => []
  | prev, b :: rest => blockIssues H prev b ++ validateGo H (some b.hash) rest

/-- `BlockchainEngine.validate_chain`: returns `(len(issues) == 0, issues)`. -/
def validateChain (H : String → String) (blocks : List BlockRec) : Bool × List String :=
  let issues := validateGo H none blocks
  (issues.isEmpty, issues)

/-- The `prev_hash` value held by the validation loop when it reaches
index `i`, given the loop entered the list with value `prev`. -/
def goPrev (prev : Option String) : List BlockRec → Nat → Option String
  | _, 0 => prev
  | [], _ + 1 => prev
  | b :: rest, i + 1 => goPrev (some b.hash) rest i

/-! Helper lemmas about the validation loop. -/

theorem mem_validateGo_of_at (H : String → String) (s : String) :
    ∀ (l : List BlockRec) (prev : Option String) (i : Nat) (hi : i < l.length),
      s ∈ blockIssues H (goPrev prev l i) (l.get ⟨i, hi⟩) → s ∈ validateGo H prev l
  | [], _, i, hi, _ => absurd hi (by simp)
  | b :: rest, prev, 0, _, hmem => by
    simp only [validateGo, List.mem_append]
    exact Or.inl (by simpa [goPrev] using hmem)
  | b :: rest, prev, i + 1, hi, hmem => by
    simp only [validateGo, List.mem_append]
    refine Or.inr (mem_validateGo_of_at H s rest (some b.hash) i
      (by simpa using Nat.lt_of_succ_lt_succ hi) ?_)
    simpa [goPrev] using hmem

theorem validateGo_nil_at (H : String → String) :
    ∀ (l : List BlockRec) (prev : Option String), validateGo H prev l = [] →
      ∀ (i : Nat) (hi : i < l.length),
        blockIssues H (goPrev prev l i) (l.get ⟨i, hi⟩) = []
  | [], _, _, i, hi => absurd hi (by simp)
  | b :: rest, prev, hnil, 0, _ => by
    simp only [validateGo, List.append_eq_nil] at hnil
    simpa [goPrev] using hnil.1
  | b :: rest, prev, hnil, i + 1, hi => by
    simp only [validateGo, List.append_eq_nil] at hnil
    have := validateGo_nil_at H rest (some b.hash) hnil.2 i
      (by simpa using Nat.lt_of_succ_lt_succ hi)
    simpa [goPrev] using this

theorem blockIssues_hash_eq {H : String → String} {prev : Option String} {b : BlockRec}
    (h : blockIssues H prev b = []) : H (headerString b) = b.hash := by
  by_contra hne
  simp [blockIssues, hne] at h

theorem blockIssues_link {H : String → String} {prev : Option String} {b : BlockRec}
    (h : blockIssues H prev b = []) (hh : b.height ≠ 0) : prev = b.previous_hash := by
  by_contra hne
  simp [blockIssues, hne, hh] at h

theorem mismatch_mem {H : String → String} {prev : Option String} {b : BlockRec}
    (h : H (headerString b) ≠ b.hash) :
    ("Hash mismatch at height " ++ decStr b.height) ∈ blockIssues H prev b := by
  simp [blockIssues, h]

theorem broken_mem {H : String → String} {prev : Option String} {b : BlockRec}
    (h1 : prev ≠ b.previous_hash) (h2 : b.height ≠ 0) :
    ("Broken previous hash at height " ++ decStr b.height) ∈ blockIssues H prev b := by
  simp [blockIssues, h1, h2]

theorem difficulty_mem {H : String → String} {prev : Option String} {b : BlockRec}
    (h : startsWithZeros b.hash b.difficulty = false) :
    ("Difficulty violation at height " ++ decStr b.height) ∈ blockIssues H prev b := by
  simp [blockIssues, h]

theorem goPrev_set (prev : Option String) (b' : BlockRec) :
    ∀ (l : List BlockRec) (i : Nat), goPrev prev (l.set i b') i = goPrev prev l i
  | [], i => by cases i <;> rfl
  | b :: rest, 0 => rfl
  | b :: rest, i + 1 => by
    simpa [List.set, goPrev] using goPrev_set (some b.hash) b' rest i

/-! Header strings of blocks differing in a single field differ, because the
field values are separated by `"|"` and decimal rendering is injective. -/

theorem headerString_ne_of_nonce_ne (h : Nat) (p : Option String) (d : Nat) (m : String)
    (pl : Option (String × String)) (t : Nat) (hs hs' : String) {n n' : Nat} (hne : n ≠ n') :
    headerString ⟨h, p, n, d, m, pl, t, hs⟩ ≠ headerString ⟨h, p, n', d, m, pl, t, hs'⟩ := by
  intro heq
  apply hne
  have hd := congrArg String.data heq
  simp only [headerString, String.data_append] at hd
  have h1 := List.append_cancel_left hd
  have h2 := List.append_cancel_left h1
  have h3 := List.append_cancel_left h2
  have h4 := List.append_cancel_left h3
  have h5 := List.append_cancel_right h4
  exact decStr_injective (String.ext h5)

theorem headerString_ne_of_difficulty_ne (h : Nat) (p : Option String) (n : Nat) (m : String)
    (pl : Option (String × String)) (t : Nat) (hs hs' : String) {d d' : Nat} (hne : d ≠ d') :
    headerString ⟨h, p, n, d, m, pl, t, hs⟩ ≠ headerString ⟨h, p, n, d', m, pl, t, hs'⟩ := by
  intro heq
  apply hne
  have hd := congrArg String.data heq
  simp only [headerString, String.data_append] at hd
  have h1 := List.append_cancel_left hd
  have h2 := List.append_cancel_left h1
  have h3 := List.append_cancel_left h2
  have h4 := List.append_cancel_left h3
  have h5 := List.append_cancel_left h4
  have h6 := List.append_cancel_left h5
  have h7 := List.append_cancel_right h6
  exact decStr_injective (String.ext h7)

theorem headerString_ne_of_message_ne (h : Nat) (p : Option String) (n d : Nat)
    (pl : Option (String × String)) (t : Nat) (hs hs' : String) {m m' : String}
    (hne : m ≠ m') :
    headerString ⟨h, p, n, d, m, pl, t, hs⟩ ≠ headerString ⟨h, p, n, d, m', pl, t, hs'⟩ := by
  intro heq
  apply hne
  have hd := congrArg String.data heq
  simp only [headerString, String.data_append] at hd
  have h1 := List.append_cancel_left hd
  have h2 := List.append_cancel_left h1
  have h3 := List.append_cancel_left h2
  have h4 := List.append_cancel_left h3
  have h5 := List.append_cancel_left h4
  have h6 := List.append_cancel_left h5
  have h7 := List.append_cancel_left h6
  have h8 := List.append_cancel_left h7
  have h9 := List.append_cancel_right h8
  exact String.ext h9

/-- Well-formed chain in the sense of the data-model invariants: heights
consecutive from 0, every hash the digest of its header with the required
leading zeros, every non-genesis block linked to its predecessor's hash,
and the genesis block without a previous hash. -/
def SpecWellFormed (H : String → String) (blocks : List BlockRec) : Prop :=
  (∀ (i : Nat) (hi : i < blocks.length),
      (blocks.get ⟨i, hi⟩).height = i
    ∧ H (headerString (blocks.get ⟨i, hi⟩)) = (blocks.get ⟨i, hi⟩).hash
    ∧ startsWithZeros (blocks.get ⟨i, hi⟩).hash (blocks.get ⟨i, hi⟩).difficulty = true)
  ∧ (∀ (i : Nat) (hi : i + 1 < blocks.length),
      (blocks.get ⟨i + 1, hi⟩).previous_hash
        = some ((blocks.get ⟨i, Nat.lt_of_succ_lt hi⟩).hash))
  ∧ (∀ (hne : 0 < blocks.length), (blocks.get ⟨0, hne⟩).previous_hash = none)

theorem goPrev_succ_eq :
    ∀ (l : List BlockRec) (prev : Option String) (i : Nat) (hi : i + 1 < l.length),
      goPrev prev l (i + 1) = some ((l.get ⟨i, Nat.lt_of_succ_lt hi⟩).hash)
  | [], _, _, hi => absurd hi (by simp)
  | _ :: _, _, 0, _ => by simp [goPrev]
  | b :: rest, prev, i + 1, hi => by
    have := goPrev_succ_eq rest (some b.hash) i (by simpa using Nat.lt_of_succ_lt_succ hi)
    simpa [goPrev] using this

theorem blockIssues_nil_of {H : String → String} {prev : Option String} {b : BlockRec}
    (h1 : H (headerString b) = b.hash) (h2 : prev = b.previous_hash ∨ b.height = 0)
    (h3 : startsWithZeros b.hash b.difficulty = true) : blockIssues H prev b = [] := by
  rcases h2 with h2 | h2 <;> simp [blockIssues, h1, h2, h3]

theorem validateGo_nil_of_at (H : String → String) :
    ∀ (l : List BlockRec) (prev : Option String),
      (∀ (i : Nat) (hi : i < l.length),
        blockIssues H (goPrev prev l i) (l.get ⟨i, hi⟩) = []) →
      validateGo H prev l = []
  | [], _, _ => rfl
  | b :: rest, prev, hall => by
    have h0 := hall 0 (by simp)
    simp only [goPrev, List.get] at h0
    have hr : validateGo H (some b.hash) rest = [] := by
      refine validateGo_nil_of_at H rest (some b.hash) fun i hi => ?_
      have := hall (i + 1) (by simpa using Nat.succ_lt_succ hi)
      simpa [goPrev] using this
    simp [validateGo, h0, hr]

/-- C6: `validate_chain` walks the whole stored chain (ascending height order,
as the engine's query returns it), accumulates every recomputed-hash mismatch,
every broken previous-hash link on a non-genesis block, and every difficulty
violation without stopping early, reports no issues on the empty chain and on
any well-formed chain (a genesis-only chain included), and being a pure
function it mutates nothing. -/
theorem validateChain_spec (H : String → String) (blocks : List BlockRec) :
    validateChain H [] = (true, [])
  ∧ (SpecWellFormed H blocks → validateChain H blocks = (true, []))
  ∧ (∀ (i : Nat) (hi : i < blocks.length),
      (H (headerString (blocks.get ⟨i, hi⟩)) ≠ (blocks.get ⟨i, hi⟩).hash →
        ("Hash mismatch at height " ++ decStr (blocks.get ⟨i, hi⟩).height)
          ∈ (validateChain H blocks).2)
    ∧ (goPrev none blocks i ≠ (blocks.get ⟨i, hi⟩).previous_hash →
        (blocks.get ⟨i, hi⟩).height ≠ 0 →
        ("Broken previous hash at height " ++ decStr (blocks.get ⟨i, hi⟩).height)
          ∈ (validateChain H blocks).2)
    ∧ (startsWithZeros (blocks.get ⟨i, hi⟩).hash (blocks.get ⟨i, hi⟩).difficulty = false →
        ("Difficulty violation at height " ++ decStr (blocks.get ⟨i, hi⟩).height)
          ∈ (validateChain H blocks).2)) := by
  refine ⟨rfl, ?_, ?_⟩
  · rintro ⟨hblk, hlink, hgen⟩
    have hnil : validateGo H none blocks = [] := by
      refine validateGo_nil_of_at H blocks none fun i hi => ?_
      obtain ⟨hht, hhash, hdiff⟩ := hblk i hi
      refine blockIssues_nil_of hhash ?_ hdiff
      cases i with
      | zero => exact Or.inr hht
      | succ j =>
        left
        rw [goPrev_succ_eq blocks none j hi, hlink j hi]
    simp [validateChain, hnil]
  · intro i hi
    refine ⟨fun hne => ?_, fun hne hh0 => ?_, fun hdf => ?_⟩
    · exact mem_validateGo_of_at H _ blocks none i hi (mismatch_mem hne)
    · exact mem_validateGo_of_at H _ blocks none i hi (broken_mem hne hh0)
    · exact mem_validateGo_of_at H _ blocks none i hi (difficulty_mem hdf)

/-- Concrete genesis block used in witnesses: difficulty 0, nonce 0, message
digest `"m"`, timestamp 0, hashed by the identity digest. -/
def gB : BlockRec :=
  ⟨0, none, 0, 0, "m", none, 0, "0|GENESIS|0|0|m||0"⟩

/-- Witness for C6 at a concrete genesis-only chain validated with the
identity digest. -/
theorem validateChain_spec_witness :
    SpecWellFormed id [gB] ∧ validateChain id [gB] = (true, []) := by
  have hwf : SpecWellFormed id [gB] := by
    refine ⟨?_, ?_, ?_⟩
    · intro i hi
      match i, hi with
      | 0, _ =>
        exact ⟨rfl, (by decide : id (headerString gB) = gB.hash),
          (by decide : startsWithZeros gB.hash gB.difficulty = true)⟩
    · intro i hi
      simp at hi
    · intro _
      rfl
  exact ⟨hwf, (validateChain_spec id [gB]).2.1 hwf⟩

/-- C5: a mined block's hash is the digest of its header string and has at
least `D` leading zero hex characters; the nonce is the least natural for
which the candidate header (built with the single timestamp fixed before
the loop) satisfies the difficulty; the height is the predecessor's height
plus one, and a first block is mined at height 0 with no previous hash. -/
theorem mineBlock_spec (H : String → String) (last : Option BlockRec) (msg : String)
    (pl : Option (String × String)) (ts : Nat) (D : Nat)
    (hex : ∃ n, startsWithZeros (H (mineHeader last msg pl ts D n)) D = true) :
    (mineBlock H last msg pl ts D hex).hash
      = H (headerString (mineBlock H last msg pl ts D hex))
  ∧ startsWithZeros (mineBlock H last msg pl ts D hex).hash D = true
  ∧ (∀ m, m < (mineBlock H last msg pl ts D hex).nonce →
      startsWithZeros (H (mineHeader last msg pl ts D m)) D = false)
  ∧ (mineBlock H last msg pl ts D hex).difficulty = D
  ∧ (mineBlock H last msg pl ts D hex).timestamp = ts
  ∧ (mineBlock H last msg pl ts D hex).message_hash = msg
  ∧ (∀ p, last = some p → (mineBlock H last msg pl ts D hex).height = p.height + 1)
  ∧ (last = none → (mineBlock H last msg pl ts D hex).height = 0
      ∧ (mineBlock H last msg pl ts D hex).previous_hash = none) := by
  refine ⟨rfl, Nat.find_spec hex, fun m hm => ?_, rfl, rfl, rfl, fun p hp => ?_, fun hn => ?_⟩
  · have := Nat.find_min hex hm
    simpa using this
  · simp [mineBlock, mineHeight, hp]
  · exact ⟨by simp [mineBlock, mineHeight, hn], by simp [mineBlock, minePrev, hn]⟩

/-- Mining terminates at nonce 0 for the constant-empty digest at
difficulty 0: the hypothesis used by the C5 witness. -/
theorem mineHex0 :
    ∃ n, startsWithZeros ((fun _ => "") (mineHeader none "m" none 0 0 n)) 0 = true :=
  ⟨0, by decide⟩

/-- Witness for C5 with the trivial digest at difficulty 0. -/
theorem mineBlock_spec_witness :
    (∃ n, startsWithZeros ((fun _ => "") (mineHeader none "m" none 0 0 n)) 0 = true)
  ∧ ((mineBlock (fun _ => "") none "m" none 0 0 mineHex0).hash
      = (fun _ => "") (headerString (mineBlock (fun _ => "") none "m" none 0 0 mineHex0))
    ∧ startsWithZeros (mineBlock (fun _ => "") none "m" none 0 0 mineHex0).hash 0 = true
    ∧ (∀ m, m < (mineBlock (fun _ => "") none "m" none 0 0 mineHex0).nonce →
        startsWithZeros ((fun _ => "") (mineHeader none "m" none 0 0 m)) 0 = false)
    ∧ (mineBlock (fun _ => "") none "m" none 0 0 mineHex0).difficulty = 0
    ∧ (mineBlock (fun _ => "") none "m" none 0 0 mineHex0).timestamp = 0
    ∧ (mineBlock (fun _ => "") none "m" none 0 0 mineHex0).message_hash = "m"
    ∧ (∀ p, (none : Option BlockRec) = some p →
        (mineBlock (fun _ => "") none "m" none 0 0 mineHex0).height = p.height + 1)
    ∧ ((none : Option BlockRec) = none →
        (mineBlock (fun _ => "") none "m" none 0 0 mineHex0).height = 0
      ∧ (mineBlock (fun _ => "") none "m" none 0 0 mineHex0).previous_hash = none)) :=
  ⟨mineHex0, mineBlock_spec (fun _ => "") none "m" none 0 0 mineHex0⟩

/-- Amended C7: on a clean chain with consecutive heights, assuming the
digest is injective (collision-free), mutating one block's `hash`, `nonce`,
`message_hash` or `difficulty`, or the `previous_hash` of a non-genesis
block, makes revalidation emit an issue naming the block's height. -/
theorem validate_detects_mutation (H : String → String) (Hinj : Function.Injective H)
    (blocks : List BlockRec)
    (hh : ∀ (i : Nat) (hi : i < blocks.length), (blocks.get ⟨i, hi⟩).height = i)
    (hv : validateGo H none blocks = []) (i : Nat) (hi : i < blocks.length) :
    (∀ h', h' ≠ (blocks.get ⟨i, hi⟩).hash →
      ("Hash mismatch at height " ++ decStr (blocks.get ⟨i, hi⟩).height)
        ∈ validateGo H none (blocks.set i { blocks.get ⟨i, hi⟩ with hash := h' }))
  ∧ (∀ p', 0 < i → p' ≠ (blocks.get ⟨i, hi⟩).previous_hash →
      ("Broken previous hash at height " ++ decStr (blocks.get ⟨i, hi⟩).height)
        ∈ validateGo H none (blocks.set i { blocks.get ⟨i, hi⟩ with previous_hash := p' }))
  ∧ (∀ n', n' ≠ (blocks.get ⟨i, hi⟩).nonce →
      ("Hash mismatch at height " ++ decStr (blocks.get ⟨i, hi⟩).height)
        ∈ validateGo H none (blocks.set i { blocks.get ⟨i, hi⟩ with nonce := n' }))
  ∧ (∀ m', m' ≠ (blocks.get ⟨i, hi⟩).message_hash →
      ("Hash mismatch at height " ++ decStr (blocks.get ⟨i, hi⟩).height)
        ∈ validateGo H none (blocks.set i { blocks.get ⟨i, hi⟩ with message_hash := m' }))
  ∧ (∀ d', d' ≠ (blocks.get ⟨i, hi⟩).difficulty →
      ("Hash mismatch at height " ++ decStr (blocks.get ⟨i, hi⟩).height)
        ∈ validateGo H none (blocks.set i { blocks.get ⟨i, hi⟩ with difficulty := d' })) := by
  have hbi := validateGo_nil_at H blocks none hv i hi
  have hhash := blockIssues_hash_eq hbi
  refine ⟨fun h' hne => ?_, fun p' hpos hne => ?_, fun n' hne => ?_,
    fun m' hne => ?_, fun d' hne => ?_⟩
  · refine mem_validateGo_of_at H _ _ none i (by simpa using hi) ?_
    rw [List.get_set_eq, goPrev_set]
    refine mismatch_mem fun hEq => hne ?_
    have hEq' : H (headerString (blocks.get ⟨i, hi⟩)) = h' := hEq
    exact (hhash.symm.trans hEq').symm
  · have hh0 : (blocks.get ⟨i, hi⟩).height ≠ 0 := by
      rw [hh i hi]; omega
    have hlink := blockIssues_link hbi hh0
    refine mem_validateGo_of_at H _ _ none i (by simpa using hi) ?_
    rw [List.get_set_eq, goPrev_set]
    exact broken_mem (by rw [hlink]; exact fun hEq => hne hEq.symm) hh0
  · refine mem_validateGo_of_at H _ _ none i (by simpa using hi) ?_
    rw [List.get_set_eq, goPrev_set]
    refine mismatch_mem fun hEq => ?_
    have hne' := headerString_ne_of_nonce_ne (blocks.get ⟨i, hi⟩).height
      (blocks.get ⟨i, hi⟩).previous_hash (blocks.get ⟨i, hi⟩).difficulty
      (blocks.get ⟨i, hi⟩).message_hash (blocks.get ⟨i, hi⟩).payload
      (blocks.get ⟨i, hi⟩).timestamp (blocks.get ⟨i, hi⟩).hash
      (blocks.get ⟨i, hi⟩).hash hne
    exact hne' (Hinj (hEq.trans hhash.symm))
  · refine mem_validateGo_of_at H _ _ none i (by simpa using hi) ?_
    rw [List.get_set_eq, goPrev_set]
    refine mismatch_mem fun hEq => ?_
    have hne' := headerString_ne_of_message_ne (blocks.get ⟨i, hi⟩).height
      (blocks.get ⟨i, hi⟩).previous_hash (blocks.get ⟨i, hi⟩).nonce
      (blocks.get ⟨i, hi⟩).difficulty (blocks.get ⟨i, hi⟩).payload
      (blocks.get ⟨i, hi⟩).timestamp (blocks.get ⟨i, hi⟩).hash
      (blocks.get ⟨i, hi⟩).hash hne
    exact hne' (Hinj (hEq.trans hhash.symm))
  · refine mem_validateGo_of_at H _ _ none i (by simpa using hi) ?_
    rw [List.get_set_eq, goPrev_set]
    refine mismatch_mem fun hEq => ?_
    have hne' := headerString_ne_of_difficulty_ne (blocks.get ⟨i, hi⟩).height
      (blocks.get ⟨i, hi⟩).previous_hash (blocks.get ⟨i, hi⟩).nonce
      (blocks.get ⟨i, hi⟩).message_hash (blocks.get ⟨i, hi⟩).payload
      (blocks.get ⟨i, hi⟩).timestamp (blocks.get ⟨i, hi⟩).hash
      (blocks.get ⟨i, hi⟩).hash hne
    exact hne' (Hinj (hEq.trans hhash.symm))

/-- Counterexample to C7 as stated: in a valid genesis-only chain, changing
the genesis block's `previous_hash` from absent to the string `"GENESIS"`
is a real mutation of the stored copy, yet revalidation reports no issue at
all (the rendered header is unchanged and the linkage check skips height 0). -/
theorem genesis_prev_mutation_undetected :
    some "GENESIS" ≠ gB.previous_hash
  ∧ validateChain id [gB] = (true, [])
  ∧ validateChain id [{ gB with previous_hash := some "GENESIS" }] = (true, []) :=
  ⟨by decide, by decide, by decide⟩

/-- Witness for the amended C7 at the concrete genesis-only chain and the
identity digest: mutating the stored hash is detected at height 0. -/
theorem validate_detects_mutation_witness :
    Function.Injective (id : String → String)
  ∧ validateGo id none [gB] = []
  ∧ ("Hash mismatch at height " ++ decStr gB.height)
      ∈ validateGo id none [{ gB with hash := "x" }] := by
  have hinj : Function.Injective (id : String → String) := fun a b h => h
  have hh : ∀ (i : Nat) (hi : i < [gB].length), ([gB].get ⟨i, hi⟩).height = i := by
    intro i hi
    match i, hi with
    | 0, _ => rfl
  refine ⟨hinj, by decide, ?_⟩
  have := (validate_detects_mutation id hinj [gB] hh (by decide) 0 (by decide)).1
    "x" (by decide)
  simpa using this

/-! ### Ephemeral ECDH handshake service (PFS)

From `backend/pfs/ecdh_service.py` (`EphemeralECDHService`).  The pending
store `self._pending : Dict[str, (private_key, expiry)]` becomes an
association list keyed by session id; `time.time()` floats become `Rat`.
The EC primitives (`load_pem_public_key` + the `isinstance` elliptic-curve
check, `exchange` followed by the HKDF over `b"cipherlink-pfs"`, base64,
hex fingerprint) are parameters of the embedding.
-/

structure PendingEntry (Priv : Type) where
  priv : Priv
  expiresAt : Rat
deriving DecidableEq

structure PFSSessionRec where
  id : String
  initiator_user_id : String
  peer_user_id : String
  server_public_key_pem : String
  shared_key_fingerprint : Option String
  status : String
  expires_at : Rat
deriving DecidableEq

structure ContactRec where
  user_a_id : String
  user_b_id : String
  session_key_base64 : String
deriving DecidableEq

/-- The HTTP failures raised by `EphemeralECDHService.complete`. -/
inductive PFSError
  /-- 410 "PFS session expired": no pending entry for the session id. -/
  | gone
  /-- 400 "Invalid client public key" (also a PEM parse failure). -/
  | invalidClientKey
  /-- 400 "Contact link missing for PFS completion". -/
  | missingLink
deriving DecidableEq

def findPending {Priv : Type} (st : List (String × PendingEntry Priv)) (sid : String) :
    Option (PendingEntry Priv) :=
  (st.find? (fun e => e.1 == sid)).map Prod.snd

def removePending {Priv : Type} (st : List (String × PendingEntry Priv)) (sid : String) :
    List (String × PendingEntry Priv) :=
  st.filter (fun e => e.1 != sid)

/-- `EphemeralECDHService._clean`: evict every entry whose expiry lies in
the past.  In the source this sweep runs only from `start`. -/
def cleanPending {Priv : Type} (now : Rat) (st : List (String × PendingEntry Priv)) :
    List (String × PendingEntry Priv) :=
  st.filter (fun e => decide (¬ now > e.2.expiresAt))

/-- `EphemeralECDHService.complete`: pop the pending private key (a miss is
410 Gone), parse and type-check the caller's public key (failure is 400,
after the pop), derive the shared key, update the session row, and write
the raw key's base64 into the contact link.  No expiry comparison occurs
here: the popped entry's `expiresAt` is discarded, exactly as the source
unpacks `private_key, _ = pending`. -/
def pfsComplete {Priv Pub DK : Type}
    (parseECPublicKey : String → Option Pub)
    (ecdhDerive : Priv → Pub → DK)
    (b64encode : DK → String) (fingerprintHex : DK → String)
    (now : Rat)
    (st : List (String × PendingEntry Priv))
    (session : PFSSessionRec) (link : Option ContactRec)
    (client_public_pem : String) :
    Except PFSError (String × PFSSessionRec × ContactRec)
      × List (String × PendingEntry Priv) :=
  let pending := findPending st session.id
  let st' := removePending st session.id
  match pending with
  | none => (Except.error PFSError.gone, st')
  | some entry =>
    match parseECPublicKey client_public_pem with
    | none => (Except.error PFSError.invalidClientKey, st')
    | some clientKey =>
      let derived := ecdhDerive entry.priv clientKey
      let keyB64 := b64encode derived
      let session' := { session with
        shared_key_fingerprint := some (fingerprintHex derived),
        status := "active",
        expires_at := now + 600 }
      match link with
      | none => (Except.error PFSError.missingLink, st')
      | some c =>
        (Except.ok (keyB64, session', { c with session_key_base64 := keyB64 }), st')

theorem findPending_removePending {Priv : Type}
    (st : List (String × PendingEntry Priv)) (sid : String) :
    findPending (removePending st sid) sid = none := by
  have hf : List.find? (fun e => e.1 == sid) (st.filter (fun e => e.1 != sid)) = none := by
    rw [List.find?_eq_none]
    intro x hx
    simpa using List.of_mem_filter hx
  simp [findPending, removePending, hf]

theorem removePending_of_not_found {Priv : Type}
    (st : List (String × PendingEntry Priv)) (sid : String)
    (h : findPending st sid = none) : removePending st sid = st := by
  have hf : List.find? (fun e => e.1 == sid) st = none := by
    cases hfind : List.find? (fun e => e.1 == sid) st with
    | none => rfl
    | some v => simp [findPending, hfind] at h
  rw [removePending, List.filter_eq_self.mpr]
  intro x hx
  simpa using List.find?_eq_none.mp hf x hx

/-- C4: completion is one-time.  A first `complete` that finds the pending
entry pops it and (with a parsable EC key and a contact link) returns the
derived key, the updated session row and the updated link; the popped store
no longer resolves the id, so any immediately following `complete` for the
same session id fails with 410 Gone and leaves the store unchanged — no TTL
expiry needs to intervene. -/
theorem pfsComplete_one_time {Priv Pub DK : Type}
    (parse : String → Option Pub) (derive : Priv → Pub → DK)
    (b64e : DK → String) (fp : DK → String)
    (now now2 : Rat) (st : List (String × PendingEntry Priv))
    (session session2 : PFSSessionRec) (c : ContactRec) (link2 : Option ContactRec)
    (pem pem2 : String) (entry : PendingEntry Priv) (pub : Pub)
    (hfind : findPending st session.id = some entry)
    (hparse : parse pem = some pub)
    (hsid : session2.id = session.id) :
    (pfsComplete parse derive b64e fp now st session (some c) pem).1
      = Except.ok (b64e (derive entry.priv pub),
          { session with
            shared_key_fingerprint := some (fp (derive entry.priv pub)),
            status := "active", expires_at := now + 600 },
          { c with session_key_base64 := b64e (derive entry.priv pub) })
  ∧ (pfsComplete parse derive b64e fp now st session (some c) pem).2
      = removePending st session.id
  ∧ findPending (removePending st session.id) session.id = none
  ∧ (pfsComplete parse derive b64e fp now2
        (removePending st session.id) session2 link2 pem2).1
      = Except.error PFSError.gone
  ∧ (pfsComplete parse derive b64e fp now2
        (removePending st session.id) session2 link2 pem2).2
      = removePending st session.id := by
  have hgone : findPending (removePending st session.id) session2.id = none := by
    rw [hsid]
    exact findPending_removePending st session.id
  refine ⟨?_, ?_, findPending_removePending st session.id, ?_, ?_⟩
  · simp [pfsComplete, hfind, hparse]
  · simp [pfsComplete, hfind, hparse]
  · simp [pfsComplete, hgone]
  · simp only [pfsComplete, hgone]
    rw [hsid]
    exact removePending_of_not_found _ _ (findPending_removePending st session.id)

/-- C8: when the pending entry exists but the supplied public key fails to
parse as an elliptic-curve key, `complete` fails with the 400 error — yet
the entry was already popped before the key was validated, so the failed
call consumes the handshake and a retry with a correct key gets 410 Gone. -/
theorem pfsComplete_invalid_key_consumes {Priv Pub DK : Type}
    (parse : String → Option Pub) (derive : Priv → Pub → DK)
    (b64e : DK → String) (fp : DK → String)
    (now now2 : Rat) (st : List (String × PendingEntry Priv))
    (session session2 : PFSSessionRec) (link link2 : Option ContactRec)
    (pem pem2 : String) (entry : PendingEntry Priv) (pub : Pub)
    (hfind : findPending st session.id = some entry)
    (hparse : parse pem = none)
    (hsid : session2.id = session.id)
    (_hparse2 : parse pem2 = some pub) :
    (pfsComplete parse derive b64e fp now st session link pem).1
      = Except.error PFSError.invalidClientKey
  ∧ (pfsComplete parse derive b64e fp now st session link pem).2
      = removePending st session.id
  ∧ findPending (removePending st session.id) session.id = none
  ∧ (pfsComplete parse derive b64e fp now2
        (removePending st session.id) session2 link2 pem2).1
      = Except.error PFSError.gone := by
  have hgone : findPending (removePending st session.id) session2.id = none := by
    rw [hsid]
    exact findPending_removePending st session.id
  refine ⟨?_, ?_, findPending_removePending st session.id, ?_⟩
  · simp [pfsComplete, hfind, hparse]
  · simp [pfsComplete, hfind, hparse]
  · simp [pfsComplete, hgone]

/-! Concrete instantiation of the abstract EC primitives, used by the PFS
witnesses and the TTL code-bug demonstration. -/

def cParse : String → Option Nat := fun s => if s = "CLIENT-PEM" then some 0 else none

def cDerive : Nat → Nat → Nat := fun a b => a + b

def cB64 : Nat → String := fun k => "b64-" ++ decStr k

def cFp : Nat → String := fun k => "fp-" ++ decStr k

def cSession : PFSSessionRec :=
  ⟨"s1", "alice", "bob", "SERVER-PEM", none, "pending", 1000⟩

def cLink : ContactRec := ⟨"alice", "bob", "old-key"⟩

/-- A pending store holding one entry for session `"s1"` whose private-key
TTL expired at time 100. -/
def cStore : List (String × PendingEntry Nat) := [("s1", ⟨0, 100⟩)]

/-- C3 (code bug): at time 200 the entry's TTL (100) has elapsed — the
`_clean` sweep would evict it — yet `complete` succeeds and returns derived
key material, because `complete` only checks presence of the popped entry
and discards its expiry (`private_key, _ = pending`); no lookup-time expiry
check exists outside the sweep that `start` runs. -/
theorem pfsComplete_ignores_ttl :
    ((100 : Rat) < 200)
  ∧ cleanPending 200 cStore = []
  ∧ (pfsComplete cParse cDerive cB64 cFp 200 cStore cSession (some cLink) "CLIENT-PEM").1
      = Except.ok ("b64-0",
          ⟨"s1", "alice", "bob", "SERVER-PEM", some "fp-0", "active", (200 : Rat) + 600⟩,
          ⟨"alice", "bob", "b64-0"⟩) := by
  refine ⟨by norm_num, by decide, ?_⟩
  rfl

/-- Witness for C4 at the concrete store: the first completion succeeds,
the second gets Gone. -/
theorem pfsComplete_one_time_witness :
    (findPending cStore cSession.id = some ⟨0, 100⟩
  ∧ cParse "CLIENT-PEM" = some 0
  ∧ cSession.id = cSession.id)
  ∧ ((pfsComplete cParse cDerive cB64 cFp 200 cStore cSession (some cLink) "CLIENT-PEM").1
      = Except.ok (cB64 (cDerive 0 0),
          { cSession with
            shared_key_fingerprint := some (cFp (cDerive 0 0)),
            status := "active", expires_at := (200 : Rat) + 600 },
          { cLink with session_key_base64 := cB64 (cDerive 0 0) })
    ∧ (pfsComplete cParse cDerive cB64 cFp 200 cStore cSession (some cLink) "CLIENT-PEM").2
        = removePending cStore cSession.id
    ∧ findPending (removePending cStore cSession.id) cSession.id = none
    ∧ (pfsComplete cParse cDerive cB64 cFp 300
          (removePending cStore cSession.id) cSession none "ZZZ").1
        = Except.error PFSError.gone
    ∧ (pfsComplete cParse cDerive cB64 cFp 300
          (removePending cStore cSession.id) cSession none "ZZZ").2
        = removePending cStore cSession.id) :=
  ⟨⟨rfl, rfl, rfl⟩,
    pfsComplete_one_time cParse cDerive cB64 cFp 200 300 cStore cSession cSession
      cLink none "CLIENT-PEM" "ZZZ" ⟨0, 100⟩ 0 rfl rfl rfl⟩

/-- Witness for C8 at the concrete store: a malformed key fails with the
400 error, consumes the entry, and the retry with a correct key gets Gone. -/
theorem pfsComplete_invalid_key_consumes_witness :
    (findPending cStore cSession.id = some ⟨0, 100⟩
  ∧ cParse "NOT-A-KEY" = none
  ∧ cParse "CLIENT-PEM" = some 0)
  ∧ ((pfsComplete cParse cDerive cB64 cFp 200 cStore cSession (some cLink) "NOT-A-KEY").1
      = Except.error PFSError.invalidClientKey
    ∧ (pfsComplete cParse cDerive cB64 cFp 200 cStore cSession (some cLink) "NOT-A-KEY").2
        = removePending cStore cSession.id
    ∧ findPending (removePending cStore cSession.id) cSession.id = none
    ∧ (pfsComplete cParse cDerive cB64 cFp 300
          (removePending cStore cSession.id) cSession (some cLink) "CLIENT-PEM").1
        = Except.error PFSError.gone) :=
  ⟨⟨rfl, rfl, rfl⟩,
    pfsComplete_invalid_key_consumes cParse cDerive cB64 cFp 200 300 cStore cSession
      cSession (some cLink) (some cLink) "NOT-A-KEY" "CLIENT-PEM" ⟨0, 100⟩ 0 rfl rfl rfl rfl⟩

/-! ### Key Distribution Center (KDC)

From `backend/kdc/service.py` (`issue_session`, `rotate_session`,
`revoke_session`) and `backend/key_lifecycle/routes.py` (`rotate_session`
route with its `_get_session` / `_require_participant` guards).  The RSA
and server-envelope encryption, base64 and SHA-256 fingerprint are
parameters; `secrets.token_bytes(32)` becomes the `key` argument and the
rate limiter's verdict the `allowed` flag.
-/

structure UserRec where
  id : String
  public_key_pem : Option String
deriving DecidableEq

structure KDCSessionRec where
  sender_id : String
  receiver_id : String
  encrypted_key_for_sender : String
  encrypted_key_for_receiver : String
  key_fingerprint : String
  status : String
  lifecycle_state : String
  generated_at : Rat
  distributed_at : Option Rat
  expires_at : Rat
  destroyed_at : Option Rat
deriving DecidableEq

/-- The HTTP failures of the KDC service and lifecycle routes. -/
inductive KDCError
  /-- 429 "KDC rate limit exceeded". -/
  | rateLimited
  /-- 400 "Cannot request session key with self". -/
  | selfSession
  /-- 400 "Users are not linked". -/
  | notLinked
  /-- 404 "Session not found". -/
  | notFound
  /-- 403 "Not authorized for session". -/
  | forbidden
deriving DecidableEq

/-- `_encrypt_for_user`: RSA under the registered public key, else the
server-side envelope. -/
def encryptForUser (rsaEncrypt : String → String → String)
    (encryptBlob : String → String) (u : UserRec) (kb64 : String) : String :=
  match u.public_key_pem with
  | some pem => rsaEncrypt pem kb64
  | none => encryptBlob kb64

/-- `issue_session`: rate limit, self check, contact check; envelope the
fresh key per party, fingerprint it, mark the session distributed, and
store the raw key's base64 in the contact link before committing. -/
def issueSession {Key : Type} (rsaEncrypt : String → String → String)
    (encryptBlob : String → String) (b64e : Key → String) (fp : Key → String)
    (allowed : Bool) (sender receiver : UserRec) (contact : Option ContactRec)
    (key : Key) (now : Rat) : Except KDCError (KDCSessionRec × ContactRec) :=
  if allowed = false then Except.error KDCError.rateLimited
  else if sender.id = receiver.id then Except.error KDCError.selfSession
  else match contact with
  | none => Except.error KDCError.notLinked
  | some c =>
    let kb64 := b64e key
    let session : KDCSessionRec := {
      sender_id := sender.id, receiver_id := receiver.id,
      encrypted_key_for_sender := encryptForUser rsaEncrypt encryptBlob sender kb64,
      encrypted_key_for_receiver := encryptForUser rsaEncrypt encryptBlob receiver kb64,
      key_fingerprint := fp key,
      status := "active", lifecycle_state := "distributed",
      generated_at := now, distributed_at := some now,
      expires_at := now + 1800, destroyed_at := none }
    Except.ok (session, { c with session_key_base64 := kb64 })

/-- `rotate_session` (service): unconditionally re-envelope a fresh key,
update fingerprint, set `lifecycle_state = "rotated"`, `status = "active"`,
push `expires_at` 30 minutes out, and store the raw key's base64 in the
contact link.  The source performs no status or lifecycle check. -/
def rotateSession {Key : Type} (rsaEncrypt : String → String → String)
    (encryptBlob : String → String) (b64e : Key → String) (fp : Key → String)
    (session : KDCSessionRec) (sender receiver : UserRec)
    (contact : Option ContactRec) (key : Key) (now : Rat) :
    Except KDCError (KDCSessionRec × ContactRec) :=
  let kb64 := b64e key
  let session' := { session with
    encrypted_key_for_sender := encryptForUser rsaEncrypt encryptBlob sender kb64,
    encrypted_key_for_receiver := encryptForUser rsaEncrypt encryptBlob receiver kb64,
    key_fingerprint := fp key,
    lifecycle_state := "rotated", status := "active",
    expires_at := now + 1800 }
  match contact with
  | none => Except.error KDCError.notLinked
  | some c => Except.ok (session', { c with session_key_base64 := kb64 })

def lookupKDCSession (sessions : List (String × KDCSessionRec)) (sid : String) :
    Option KDCSessionRec :=
  (sessions.find? (fun e => e.1 == sid)).map Prod.snd

/-- The `/lifecycle/rotate-session-key` route: 404 on unknown id, 403 when
the actor is neither participant, then the service rotation — the route
adds no terminal-state guard either. -/
def rotateRoute {Key : Type} (rsaEncrypt : String → String → String)
    (encryptBlob : String → String) (b64e : Key → String) (fp : Key → String)
    (sessions : List (String × KDCSessionRec)) (sid : String) (actorId : String)
    (sender receiver : UserRec) (contact : Option ContactRec) (key : Key)
    (now : Rat) : Except KDCError (KDCSessionRec × ContactRec) :=
  match lookupKDCSession sessions sid with
  | none => Except.error KDCError.notFound
  | some s =>
    if actorId ≠ s.sender_id ∧ actorId ≠ s.receiver_id then
      Except.error KDCError.forbidden
    else rotateSession rsaEncrypt encryptBlob b64e fp s sender receiver contact key now

/-! Concrete envelope primitives and records for the KDC theorems. -/

def cRsa : String → String → String := fun pem s => "rsa:" ++ pem ++ ":" ++ s

def cBlob : String → String := fun s => "blob:" ++ s

def cSender : UserRec := ⟨"alice", some "PEM-A"⟩

def cReceiver : UserRec := ⟨"bob", none⟩

/-- A KDC session already in the terminal `revoked` state. -/
def cRevoked : KDCSessionRec :=
  ⟨"alice", "bob", "encS-old", "encR-old", "fp-old", "revoked", "revoked",
    0, some 0, 50, some 60⟩

/-- C2 (code bug): a rotate request on a session whose `status` and
`lifecycle_state` are the terminal `"revoked"` passes the route's only
guards (existence, participant) and succeeds: the key material and
fingerprint are replaced and the session is resurrected to
`status = "active"`, `lifecycle_state = "rotated"`.  Neither the route nor
the service checks the terminal state. -/
theorem rotateRoute_accepts_revoked :
    cRevoked.status = "revoked"
  ∧ cRevoked.lifecycle_state = "revoked"
  ∧ rotateRoute cRsa cBlob cB64 cFp [("k1", cRevoked)] "k1" "alice"
      cSender cReceiver (some cLink) 0 1000
      = Except.ok
          (⟨"alice", "bob", "rsa:PEM-A:b64-0", "blob:b64-0", "fp-0",
            "active", "rotated", 0, some 0, (1000 : Rat) + 1800, some 60⟩,
            ⟨"alice", "bob", "b64-0"⟩)
  ∧ ("fp-0" : String) ≠ "fp-old" :=
  ⟨rfl, rfl, rfl, by decide⟩

/-- Counterexample to C1 as stated: issuing a session key persists, in the
committed contact-link row, the raw key's base64 encoding — a key-derived
datum that is neither of the two envelopes nor the fingerprint. -/
theorem issue_persists_raw_key :
    issueSession cRsa cBlob cB64 cFp true cSender cReceiver (some cLink) 0 0
      = Except.ok
          (⟨"alice", "bob", "rsa:PEM-A:b64-0", "blob:b64-0", "fp-0",
            "active", "distributed", 0, some 0, (0 : Rat) + 1800, none⟩,
            ⟨"alice", "bob", "b64-0"⟩)
  ∧ cB64 0 = "b64-0"
  ∧ (("b64-0" : String) ≠ "rsa:PEM-A:b64-0"
    ∧ ("b64-0" : String) ≠ "blob:b64-0"
    ∧ ("b64-0" : String) ≠ "fp-0") :=
  ⟨rfl, rfl, by decide⟩

/-- Amended C1: in every successful KDC issue, KDC rotate, and PFS
completion, the session row itself carries only envelopes and the key
fingerprint, but the raw key's base64 encoding is additionally persisted in
the contact link's `session_key_base64` column. -/
theorem raw_key_to_contact_link {Key Priv Pub DK : Type}
    (rsaEncrypt : String → String → String) (encryptBlob : String → String)
    (b64e : Key → String) (fp : Key → String)
    (parse : String → Option Pub) (derive : Priv → Pub → DK)
    (b64d : DK → String) (fpd : DK → String)
    (allowed : Bool) (sender receiver : UserRec) (contact : Option ContactRec)
    (key : Key) (now : Rat) (session0 : KDCSessionRec)
    (st : List (String × PendingEntry Priv)) (psession : PFSSessionRec)
    (link : Option ContactRec) (pem : String) :
    (∀ s c', issueSession rsaEncrypt encryptBlob b64e fp allowed sender receiver
        contact key now = Except.ok (s, c') →
        s.encrypted_key_for_sender = encryptForUser rsaEncrypt encryptBlob sender (b64e key)
      ∧ s.encrypted_key_for_receiver = encryptForUser rsaEncrypt encryptBlob receiver (b64e key)
      ∧ s.key_fingerprint = fp key
      ∧ c'.session_key_base64 = b64e key)
  ∧ (∀ s c', rotateSession rsaEncrypt encryptBlob b64e fp session0 sender receiver
        contact key now = Except.ok (s, c') →
        s.encrypted_key_for_sender = encryptForUser rsaEncrypt encryptBlob sender (b64e key)
      ∧ s.encrypted_key_for_receiver = encryptForUser rsaEncrypt encryptBlob receiver (b64e key)
      ∧ s.key_fingerprint = fp key
      ∧ c'.session_key_base64 = b64e key)
  ∧ (∀ kb s c' st2, pfsComplete parse derive b64d fpd now st psession link pem
        = (Except.ok (kb, s, c'), st2) →
        ∃ dk, kb = b64d dk
          ∧ s.shared_key_fingerprint = some (fpd dk)
          ∧ c'.session_key_base64 = b64d dk) := by
  refine ⟨?_, ?_, ?_⟩
  · intro s c' hok
    unfold issueSession at hok
    by_cases hal : allowed = false
    · simp [hal] at hok
    · by_cases hself : sender.id = receiver.id
      · simp [hal, hself] at hok
      · cases contact with
        | none => simp [hal, hself] at hok
        | some c =>
          simp only [hal, hself, if_false, ite_false] at hok
          simp at hok
          obtain ⟨hs, hc⟩ := hok
          exact ⟨by rw [← hs], by rw [← hs], by rw [← hs], by rw [← hc]⟩
  · intro s c' hok
    unfold rotateSession at hok
    cases contact with
    | none => simp at hok
    | some c =>
      simp at hok
      obtain ⟨hs, hc⟩ := hok
      exact ⟨by rw [← hs], by rw [← hs], by rw [← hs], by rw [← hc]⟩
  · intro kb s c' st2 hok
    unfold pfsComplete at hok
    cases hfind : findPending st psession.id with
    | none => simp [hfind] at hok
    | some entry =>
      cases hparse : parse pem with
      | none => simp [hfind, hparse] at hok
      | some pub =>
        cases link with
        | none => simp [hfind, hparse] at hok
        | some c =>
          simp [hfind, hparse] at hok
          obtain ⟨⟨hkb, hs, hc⟩, _⟩ := hok
          exact ⟨derive entry.priv pub, hkb.symm, by rw [← hs], by rw [← hc]⟩

/-- Witness for the amended C1 at the concrete issuance that also serves as
counterexample input: envelopes and fingerprint in the session row, raw key
base64 in the contact link. -/
theorem raw_key_to_contact_link_witness :
    ("rsa:PEM-A:b64-0" : String) = encryptForUser cRsa cBlob cSender (cB64 0)
  ∧ ("blob:b64-0" : String) = encryptForUser cRsa cBlob cReceiver (cB64 0)
  ∧ ("fp-0" : String) = cFp 0
  ∧ ("b64-0" : String) = cB64 0 :=
  (raw_key_to_contact_link cRsa cBlob cB64 cFp cParse cDerive cB64 cFp true
      cSender cReceiver (some cLink) 0 0 cRevoked cStore cSession (some cLink)
      "CLIENT-PEM").1
    ⟨"alice", "bob", "rsa:PEM-A:b64-0", "blob:b64-0", "fp-0",
      "active", "distributed", 0, some 0, (0 : Rat) + 1800, none⟩
    ⟨"alice", "bob", "b64-0"⟩ rfl

/-! ### Sliding-window rate limiter

From `backend/utils/rate_limit.py`: `RateBucket.allow` pops timestamps
older than the window off the deque front, refuses when the remaining
count has reached `max_requests`, and otherwise records `now`;
`RateLimiter.check` lazily creates one bucket per key.  Monotonic-clock
floats become `Rat`.
-/

structure RateBucket where
  max_requests : Nat
  per_seconds : Rat
  timestamps : List Rat
deriving DecidableEq

/-- `RateBucket.allow`: evict the stale front of the window, then admit and
record the call iff the window still has room. -/
def RateBucket.allow (b : RateBucket) (now : Rat) : Bool × RateBucket :=
  let ts := b.timestamps.dropWhile (fun t => decide (now - t > b.per_seconds))
  if b.max_requests ≤ ts.length then (false, { b with timestamps := ts })
  else (true, { b with timestamps := ts ++ [now] })

structure RateLimiter where
  max_requests : Nat
  per_seconds : Rat
  buckets : List (String × RateBucket)
deriving DecidableEq

def findBucket (L : RateLimiter) (key : String) : Option RateBucket :=
  (L.buckets.find? (fun e => e.1 == key)).map Prod.snd

def updateBucket : List (String × RateBucket) → String → RateBucket →
    List (String × RateBucket)
  | [], key, b => [(key, b)]
  | e :: rest, key, b =>
    if e.1 = key then (key, b) :: rest else e :: updateBucket rest key b

/-- `RateLimiter.check`: fetch or lazily create the key's bucket, delegate
to `allow`, and keep the mutated bucket under the key. -/
def RateLimiter.check (L : RateLimiter) (key : String) (now : Rat) :
    Bool × RateLimiter :=
  let bucket := match findBucket L key with
    | some b => b
    | none => ⟨L.max_requests, L.per_seconds, []⟩
  let out := bucket.allow now
  (out.1, { L with buckets := updateBucket L.buckets key out.2 })

/-- Repeated `allow` calls at the given instants, threading the bucket. -/
def allowIter (b : RateBucket) : List Rat → List Bool × RateBucket
  | [] => ([], b)
  | t :: ts =>
    let out := b.allow t
    let rest := allowIter out.2 ts
    (out.1 :: rest.1, rest.2)

theorem dropWhile_window_eq_filter (now per : Rat) :
    ∀ (l : List Rat), l.Pairwise (· ≤ ·) →
      l.dropWhile (fun t => decide (now - t > per))
        = l.filter (fun t => decide (now - t ≤ per))
  | [], _ => rfl
  | a :: l, hp => by
    have hall : ∀ x ∈ l, a ≤ x := (List.pairwise_cons.mp hp).1
    have hrest := (List.pairwise_cons.mp hp).2
    by_cases hdrop : now - a > per
    · have h1 : decide (now - a > per) = true := by simpa using hdrop
      have h2 : decide (now - a ≤ per) = false := by simpa using not_le.mpr hdrop
      simp only [List.dropWhile_cons, List.filter_cons, h1, h2, if_true, if_false,
        Bool.false_eq_true, ite_false]
      exact dropWhile_window_eq_filter now per l hrest
    · have hle : now - a ≤ per := not_lt.mp hdrop
      have h1 : decide (now - a > per) = false := by simpa using hdrop
      have h2 : decide (now - a ≤ per) = true := by simpa using hle
      simp only [List.dropWhile_cons, List.filter_cons, h1, h2, Bool.false_eq_true,
        ite_false, if_true]
      rw [List.filter_eq_self.mpr]
      intro x hx
      have : now - x ≤ per := le_trans (by linarith [hall x hx]) hle
      simpa using this

theorem allow_same_time (M : Nat) (per now : Rat) (hper : 0 ≤ per) (j : Nat) :
    (RateBucket.mk M per (List.replicate j now)).allow now
      = if M ≤ j then (false, ⟨M, per, List.replicate j now⟩)
        else (true, ⟨M, per, List.replicate (j + 1) now⟩) := by
  have hkeep : decide (now - now > per) = false := by
    simp only [decide_eq_false_iff_not]
    intro hgt
    simp only [sub_self] at hgt
    exact absurd (lt_of_le_of_lt hper hgt) (lt_irrefl _)
  have hdrop : (List.replicate j now).dropWhile (fun t => decide (now - t > per))
      = List.replicate j now := by
    cases j with
    | zero => rfl
    | succ i =>
      rw [List.replicate_succ, List.dropWhile_cons, hkeep]
      simp
  unfold RateBucket.allow
  simp only [hdrop, List.length_replicate]
  by_cases hM : M ≤ j
  · simp [hM]
  · simp [hM, List.replicate_succ']

theorem allowIter_same_time (M : Nat) (per now : Rat) (hper : 0 ≤ per) :
    ∀ (k j : Nat), j + k ≤ M →
      allowIter ⟨M, per, List.replicate j now⟩ (List.replicate k now)
        = (List.replicate k true, ⟨M, per, List.replicate (j + k) now⟩)
  | 0, j, _ => by simp [allowIter]
  | k + 1, j, hk => by
    have hjM : ¬ M ≤ j := by omega
    rw [List.replicate_succ]
    simp only [allowIter, allow_same_time M per now hper j, hjM, if_false, ite_false]
    rw [allowIter_same_time M per now hper k (j + 1) (by omega)]
    have : j + 1 + k = j + (k + 1) := by omega
    rw [this, List.replicate_succ]

/-- C9: with chronologically ordered recorded events, `allow` admits a call
iff fewer than `max_requests` previously admitted calls lie in the trailing
`per_seconds` window, and an admitted call is recorded as one more event;
consequently from an empty bucket `max_requests` calls inside the window
all succeed, the next one in the same window fails, and once the window has
fully elapsed a call succeeds again.  `check` delegates to the per-key
bucket, lazily created. -/
theorem rateLimiter_window (b : RateBucket) (L : RateLimiter) (key : String)
    (now now2 : Rat) (M : Nat) (per : Rat) :
    (b.timestamps.Pairwise (· ≤ ·) →
      ((b.allow now).1 = true ↔
        (b.timestamps.filter (fun t => decide (now - t ≤ b.per_seconds))).length
          < b.max_requests))
  ∧ (b.timestamps.Pairwise (· ≤ ·) → (b.allow now).1 = true →
      (b.allow now).2.timestamps
        = b.timestamps.filter (fun t => decide (now - t ≤ b.per_seconds)) ++ [now])
  ∧ (0 < M → 0 ≤ per →
      allowIter ⟨M, per, []⟩ (List.replicate M now)
        = (List.replicate M true, ⟨M, per, List.replicate M now⟩)
      ∧ ((RateBucket.mk M per (List.replicate M now)).allow now).1 = false
      ∧ (now2 - now > per →
          ((RateBucket.mk M per (List.replicate M now)).allow now2).1 = true))
  ∧ (L.check key now).1
      = (((findBucket L key).getD ⟨L.max_requests, L.per_seconds, []⟩).allow now).1 := by
  refine ⟨fun hsort => ?_, fun hsort htrue => ?_, fun hM hper => ?_, ?_⟩
  · unfold RateBucket.allow
    dsimp only
    rw [dropWhile_window_eq_filter now b.per_seconds b.timestamps hsort]
    by_cases hc : b.max_requests ≤
        (b.timestamps.filter (fun t => decide (now - t ≤ b.per_seconds))).length
    · rw [if_pos hc]
      exact iff_of_false (by simp) (by omega)
    · rw [if_neg hc]
      exact iff_of_true rfl (by omega)
  · unfold RateBucket.allow at htrue ⊢
    dsimp only at htrue ⊢
    rw [dropWhile_window_eq_filter now b.per_seconds b.timestamps hsort] at htrue ⊢
    by_cases hc : b.max_requests ≤
        (b.timestamps.filter (fun t => decide (now - t ≤ b.per_seconds))).length
    · rw [if_pos hc] at htrue
      exact absurd htrue (by simp)
    · rw [if_neg hc]
  · refine ⟨by simpa using allowIter_same_time M per now hper M 0 (by omega), ?_, ?_⟩
    · rw [allow_same_time M per now hper M]
      simp
    · intro hgap
      have hdropall : (List.replicate M now).dropWhile
          (fun t => decide (now2 - t > per)) = [] := by
        induction M with
        | zero => rfl
        | succ i _ =>
          rw [List.replicate_succ, List.dropWhile_cons]
          simp [hgap]
      unfold RateBucket.allow
      simp only [hdropall, List.length_nil]
      have : ¬ M ≤ 0 := by omega
      simp [this]
  · rcases hfb : findBucket L key with _ | bb
    · simp [RateLimiter.check, hfb]
    · simp [RateLimiter.check, hfb]

/-- Witness for C9: window 60 with capacity 2; the iff and the recording
at concrete buckets, the fill-refuse-recover scenario at time 5 and 100,
and the `check` delegation on an empty limiter. -/
theorem rateLimiter_window_witness :
    (([0, 10] : List Rat).Pairwise (· ≤ ·)
  ∧ ([(0 : Rat)] : List Rat).Pairwise (· ≤ ·)
  ∧ (0 : Nat) < 2 ∧ (0 : Rat) ≤ 60 ∧ (100 : Rat) - 5 > 60)
  ∧ (((RateBucket.mk 2 60 [0, 10]).allow 30).1 = true ↔
      (([0, 10] : List Rat).filter (fun t => decide ((30 : Rat) - t ≤ 60))).length < 2)
  ∧ ((RateBucket.mk 2 60 [0]).allow 30).1 = true
  ∧ ((RateBucket.mk 2 60 [0]).allow 30).2.timestamps
      = ([0] : List Rat).filter (fun t => decide ((30 : Rat) - t ≤ 60)) ++ [30]
  ∧ (allowIter ⟨2, 60, []⟩ (List.replicate 2 (5 : Rat))
      = (List.replicate 2 true, ⟨2, 60, List.replicate 2 (5 : Rat)⟩)
    ∧ ((RateBucket.mk 2 60 (List.replicate 2 (5 : Rat))).allow 5).1 = false
    ∧ ((RateBucket.mk 2 60 (List.replicate 2 (5 : Rat))).allow 100).1 = true)
  ∧ ((RateLimiter.mk 2 60 []).check "k" 30).1
      = (((findBucket ⟨2, 60, []⟩ "k").getD ⟨2, 60, []⟩).allow 30).1 := by
  have hs1 : (([0, 10] : List Rat)).Pairwise (· ≤ ·) := by
    refine List.Pairwise.cons (fun x hx => ?_) (List.Pairwise.cons (fun x hx => ?_)
      List.Pairwise.nil)
    · rcases List.mem_cons.mp hx with h | h
      · rw [h]; norm_num
      · simp at h
    · simp at hx
  have hs2 : (([(0 : Rat)]) : List Rat).Pairwise (· ≤ ·) := by
    exact List.Pairwise.cons (fun x hx => by simp at hx) List.Pairwise.nil
  have hfilt : (([(0 : Rat)]) : List Rat).filter
      (fun t => decide ((30 : Rat) - t ≤ 60)) = [0] := by
    simp only [List.filter_cons, List.filter_nil]
    norm_num
  have htrue : ((RateBucket.mk 2 60 [0]).allow 30).1 = true :=
    ((rateLimiter_window ⟨2, 60, [0]⟩ ⟨2, 60, []⟩ "k" 30 0 2 60).1 hs2).mpr
      (by rw [hfilt]; norm_num)
  have hsc := (rateLimiter_window ⟨2, 60, []⟩ ⟨2, 60, []⟩ "k" 5 100 2 60).2.2.1
    (by norm_num) (by norm_num)
  refine ⟨⟨hs1, hs2, by norm_num, by norm_num, by norm_num⟩, ?_, htrue, ?_, ?_, ?_⟩
  · exact (rateLimiter_window ⟨2, 60, [0, 10]⟩ ⟨2, 60, []⟩ "k" 30 0 2 60).1 hs1
  · exact (rateLimiter_window ⟨2, 60, [0]⟩ ⟨2, 60, []⟩ "k" 30 0 2 60).2.1 hs2 htrue
  · exact ⟨hsc.1, hsc.2.1, hsc.2.2 (by norm_num)⟩
  · exact (rateLimiter_window ⟨2, 60, [0]⟩ ⟨2, 60, []⟩ "k" 30 0 2 60).2.2.2

/-! ### Audit-log queries

From `backend/key_lifecycle/routes.py` (`list_key_events`: optional
`kdcSessionId` filter, `order_by(created_at.desc())`, `limit`) and
`backend/routes/crypto.py` (`crypto_logs`: optional list of source tags,
upper-cased, same ordering and limit).  SQL's descending sort over the
stored rows is modelled with a stable insertion sort on `created_at`.
-/

/-- ASCII uppercase of one character, as Python's `str.upper` acts on the
fixed source-tag alphabet. -/
def charUpper (c : Char) : Char :=
  if 'a' ≤ c ∧ c ≤ 'z' then Char.ofNat (c.toNat - 32) else c

/-- Python `source.upper()`. -/
def pyUpper (s : String) : String := String.mk (s.data.map charUpper)

structure KeyEventRec where
  id : Nat
  kdc_session_id : Option String
  source : String
  event_type : String
  actor_id : Option String
  created_at : Rat
deriving DecidableEq

/-- Newest first: descending `created_at`, the SQL `order_by` of both
query routes. -/
def newestFirst (es : List KeyEventRec) : List KeyEventRec :=
  List.insertionSort (fun a b => b.created_at ≤ a.created_at) es

/-- The `kdcSessionId` filter of `list_key_events`; an empty string is
falsy in Python and disables the filter. -/
def sessionKeep (sf : Option String) (e : KeyEventRec) : Bool :=
  match sf with
  | none => true
  | some s => if s = "" then true else e.kdc_session_id == some s

/-- `list_key_events`: session filter, newest first, truncated. -/
def listKeyEvents (es : List KeyEventRec) (sf : Option String) (lim : Nat) :
    List KeyEventRec :=
  (newestFirst (es.filter (sessionKeep sf))).take lim

/-- The source-tag filter of `crypto_logs`; an empty list (or absent
parameter) disables the filter, and tags are upper-cased. -/
def sourceKeep (srcs : List String) (e : KeyEventRec) : Bool :=
  match srcs with
  | [] => true
  | _ => (srcs.map pyUpper).contains e.source

/-- `crypto_logs`: source filter, newest first, truncated. -/
def cryptoLogs (es : List KeyEventRec) (srcs : List String) (lim : Nat) :
    List KeyEventRec :=
  (newestFirst (es.filter (sourceKeep srcs))).take lim

/-- Modelled from the spec: §4.4's single
`query(filter_by_session?, filter_by_source*, limit)` operation, newest
first, with both optional filters. -/
def auditQuery (es : List KeyEventRec) (sf : Option String) (srcs : List String)
    (lim : Nat) : List KeyEventRec :=
  (newestFirst ((es.filter (sessionKeep sf)).filter (sourceKeep srcs))).take lim

instance : IsTotal KeyEventRec (fun a b => b.created_at ≤ a.created_at) :=
  ⟨fun a b => le_total b.created_at a.created_at⟩

instance : IsTrans KeyEventRec (fun a b => b.created_at ≤ a.created_at) :=
  ⟨fun _ _ _ h1 h2 => le_trans h2 h1⟩

theorem mem_of_mem_query {r : List KeyEventRec} {e : KeyEventRec}
    {l : List KeyEventRec} {p : KeyEventRec → Bool} {lim : Nat}
    (hr : r = (newestFirst (l.filter p)).take lim) (he : e ∈ r) : p e = true := by
  subst hr
  have h1 : e ∈ newestFirst (l.filter p) := List.mem_of_mem_take he
  rw [newestFirst] at h1
  have h2 : e ∈ l.filter p :=
    (List.perm_insertionSort
      (fun (a b : KeyEventRec) => b.created_at ≤ a.created_at) (l.filter p)).mem_iff.mp h1
  exact List.of_mem_filter h2

/-- C10: both exposed audit-log queries realize the spec's
`query(filter_by_session?, filter_by_source*, limit)` — the lifecycle route
instantiates the source filter empty, the crypto route the session filter
empty — returning events newest first, truncated to `limit`, with every
returned event matching the requested session id and source tags; the
queries are read-only (pure functions of the stored events). -/
theorem audit_query_spec (es : List KeyEventRec) (sf : Option String)
    (srcs : List String) (lim : Nat) (s : String) (e : KeyEventRec) :
    listKeyEvents es sf lim = auditQuery es sf [] lim
  ∧ cryptoLogs es srcs lim = auditQuery es none srcs lim
  ∧ (listKeyEvents es sf lim).Pairwise (fun a b => b.created_at ≤ a.created_at)
  ∧ (cryptoLogs es srcs lim).Pairwise (fun a b => b.created_at ≤ a.created_at)
  ∧ (listKeyEvents es sf lim).length ≤ lim
  ∧ (cryptoLogs es srcs lim).length ≤ lim
  ∧ (s ≠ "" → e ∈ listKeyEvents es (some s) lim → e.kdc_session_id = some s)
  ∧ (srcs ≠ [] → e ∈ cryptoLogs es srcs lim → e.source ∈ srcs.map pyUpper) := by
  have hsrc0 : ∀ (l : List KeyEventRec), l.filter (sourceKeep []) = l := fun l =>
    List.filter_eq_self.mpr (fun a _ => rfl)
  have hsess0 : ∀ (l : List KeyEventRec), l.filter (sessionKeep none) = l := fun l =>
    List.filter_eq_self.mpr (fun a _ => rfl)
  have hsorted : ∀ (l : List KeyEventRec),
      (newestFirst l).Pairwise (fun a b => b.created_at ≤ a.created_at) := fun l => by
    rw [newestFirst]
    exact List.sorted_insertionSort (fun (a b : KeyEventRec) => b.created_at ≤ a.created_at) l
  refine ⟨?_, ?_, ?_, ?_, ?_, ?_, ?_, ?_⟩
  · unfold listKeyEvents auditQuery
    rw [hsrc0]
  · unfold cryptoLogs auditQuery
    rw [hsess0]
  · exact List.Pairwise.sublist (List.take_sublist lim _) (hsorted _)
  · exact List.Pairwise.sublist (List.take_sublist lim _) (hsorted _)
  · exact List.length_take_le lim _
  · exact List.length_take_le lim _
  · intro hs hmem
    have hp := mem_of_mem_query rfl hmem
    simp only [sessionKeep, if_neg hs] at hp
    exact eq_of_beq hp
  · intro hsrcs hmem
    have hp := mem_of_mem_query rfl hmem
    cases srcs with
    | nil => exact absurd rfl hsrcs
    | cons a rest =>
      simp only [sourceKeep] at hp
      exact List.mem_of_elem_eq_true hp

/-- Concrete audit events used by the C10 witness. -/
def cEv1 : KeyEventRec := ⟨1, some "sess", "KDC", "generated", some "alice", 10⟩

def cEv2 : KeyEventRec := ⟨2, some "sess", "PFS", "start", some "alice", 20⟩

/-- Witness for C10: a two-event store queried by session and by source. -/
theorem audit_query_spec_witness :
    ("sess" : String) ≠ ""
  ∧ (["KDC"] : List String) ≠ []
  ∧ listKeyEvents [cEv1, cEv2] (some "sess") 10 = auditQuery [cEv1, cEv2] (some "sess") [] 10
  ∧ cryptoLogs [cEv1, cEv2] ["KDC"] 10 = auditQuery [cEv1, cEv2] none ["KDC"] 10
  ∧ (listKeyEvents [cEv1, cEv2] (some "sess") 10).length ≤ 10
  ∧ cEv1 ∈ listKeyEvents [cEv1, cEv2] (some "sess") 10
  ∧ cEv1.kdc_session_id = some "sess"
  ∧ cEv1 ∈ cryptoLogs [cEv1, cEv2] ["KDC"] 10
  ∧ cEv1.source ∈ (["KDC"] : List String).map pyUpper := by
  have hth := audit_query_spec [cEv1, cEv2] (some "sess") ["KDC"] 10 "sess" cEv1
  have hm1 : cEv1 ∈ listKeyEvents [cEv1, cEv2] (some "sess") 10 := by decide
  have hm2 : cEv1 ∈ cryptoLogs [cEv1, cEv2] ["KDC"] 10 := by decide
  exact ⟨by decide, by decide, hth.1, hth.2.1, hth.2.2.2.2.1, hm1,
    hth.2.2.2.2.2.2.1 (by decide) hm1, hm2,
    hth.2.2.2.2.2.2.2 (by decide) hm2⟩

end CipherLink
